import Mathlib

/-!
Verification development for the portfolio_manager repository.

Conventions of the shallow embedding:
* Python floats are modelled as exact real numbers (for the carried-interest
  waterfall, which takes fractional-year powers) or as exact rationals (for
  the loan schedule, whose arithmetic is rational throughout).
* Calendar dates that are always normalised to an end of month are modelled
  by their month index, the integer 12 * year + (month - 1); comparing two
  end-of-month dates agrees with comparing their month indices.
* Calendar dates that may fall anywhere in a month (Property ownership
  queries) are modelled as a month index together with a day of month,
  ordered lexicographically.
* Python round(x, n) (banker's rounding) is modelled by pyRound below.
-/

/-- Leap-year rule used by calendar.monthrange. -/
def isLeapYear (y : ℤ) : Bool :=
  (y % 4 == 0 && y % 100 != 0) || y % 400 == 0

/-- Number of days of the month whose month index is ym (monthrange(...)[1]).
The year is ym.fdiv 12 and the zero-based month is ym.emod 12. -/
def daysInMonthIdx (ym : ℤ) : ℤ :=
  let m := ym.emod 12
  if m = 1 then (if isLeapYear (ym.fdiv 12) then 29 else 28)
  else if m = 3 ∨ m = 5 ∨ m = 8 ∨ m = 10 then 30
  else 31

/-- Day count from the end of month a to the end of month a + n, accumulated
one month at a time: each step from one end of month to the next contributes
the day count of the later month. -/
def daysFromME (a : ℤ) : ℕ → ℤ
  | 0 => 0
  | n + 1 => daysFromME a n + daysInMonthIdx (a + (n + 1))

/-- Day difference (end-of-month b minus end-of-month a), as produced by
subtracting the two Python dates, for a less than or equal to b. -/
def daysBetweenME (a b : ℤ) : ℤ := daysFromME a (b - a).toNat

/-- Day-count convention of a loan (Loan.payment_type). -/
inductive PaymentType
  | actual360
  | thirty360
  | actual365
deriving DecidableEq, Repr

/-- One row of the generated loan schedule (Loan.initialize_loan_schedule). -/
structure Row where
  beginning_balance : ℚ
  loan_draw : ℚ
  loan_paydown : ℚ
  interest_payment : ℚ
  scheduled_principal_payment : ℚ
  ending_balance : ℚ
  encumbered : ℚ
deriving DecidableEq, Repr

/-- Row with every field zero, as written by the foreclosure branch and the
after-prepayment branch of Loan.generate_loan_schedule. -/
def zeroRow : Row := ⟨0, 0, 0, 0, 0, 0, 0⟩

instance : Inhabited Row := ⟨zeroRow⟩

/-- State of a Loan object. Dates are end-of-month dates, modelled by month
index (the constructor normalises fund, maturity, prepayment and foreclosure
dates with get_end_of_month). loan_draws and loan_paydowns are the monthly
activity dictionaries, read through get_loan_draw / get_loan_paydown which
default to 0, hence modelled as total functions. -/
structure Loan where
  loan_amount : ℚ
  rate : ℚ
  fund_date : ℤ
  maturity_date : ℤ
  payment_type : PaymentType
  interest_only_periods : ℕ
  amortizing_periods : ℕ
  commitment : Option ℚ
  prepayment_date : Option ℤ
  foreclosure_date : Option ℤ
  loan_draws : ℤ → ℚ
  loan_paydowns : ℤ → ℚ

/-- Interest for one period (Loan.calculate_interest): balance * rate *
numerator / denominator, where the numerator is the actual day difference
for the Actual conventions and 30 for 30/360. -/
def calculate_interest (l : Loan) (balance : ℚ) (start_me end_me : ℤ) : ℚ :=
  let delta : ℚ := (daysBetweenME start_me end_me : ℤ)
  match l.payment_type with
  | .actual360 => balance * l.rate * delta / 360
  | .thirty360 => balance * l.rate * 30 / 360
  | .actual365 => balance * l.rate * delta / 365

/-- Level payment of an amortizing loan (Loan.calculate_amortizing_payment):
0 when there are no amortizing periods, straight-line when the rate is 0, and
the annuity formula otherwise, with monthly rate = rate / 12. -/
def calculate_amortizing_payment (l : Loan) (loan_balance : ℚ) : ℚ :=
  if l.amortizing_periods = 0 then 0
  else
    let monthly_rate := l.rate / 12
    if monthly_rate = 0 then loan_balance / (l.amortizing_periods : ℚ)
    else loan_balance * (monthly_rate * (1 + monthly_rate) ^ l.amortizing_periods) /
      ((1 + monthly_rate) ^ l.amortizing_periods - 1)

/-- Number of monthly schedule dates (Loan.initialize_loan_schedule): the
months from the fund date to the maturity date inclusive. -/
def monthsCount (l : Loan) : ℕ := (l.maturity_date - l.fund_date).toNat + 1

/-- The schedule keys (Loan.monthly_dates): consecutive end-of-month dates
from the fund date to the maturity date. -/
def monthly_dates (l : Loan) : List ℤ :=
  (List.range (monthsCount l)).map (fun i => l.fund_date + Int.ofNat i)

/-- Normal-month computation of Loan.generate_loan_schedule (the branch that
is reached when the month is neither foreclosed, the funding month, nor a
zeroed post-prepayment month): interest accrual, scheduled principal while
amortizing past the interest-only periods, then the prepayment override and
the maturity paydown, and finally the max-floored ending balance. Returns
the row together with the updated prepayment_done flag. -/
def normalRow (l : Loan) (pay : ℚ) (i : ℕ) (priorKey key : ℤ) (priorEnd : ℚ)
    (prepDone : Bool) : Row × Bool :=
  let beg := max 0 priorEnd
  let draw := l.loan_draws key
  let pd0 := l.loan_paydowns key
  let interest := calculate_interest l beg priorKey key
  let sched :=
    if 0 < l.amortizing_periods ∧ l.interest_only_periods < i then
      min (max 0 (pay - interest)) beg
    else 0
  let prepHit := (l.prepayment_date.map (fun p => decide (p = key))).getD false
                  && !prepDone
  let pd1 := if prepHit then
      let amt := max 0 (beg - sched)
      let allowable := beg + draw
      if amt > allowable then allowable else amt
    else pd0
  let prepDone' := prepHit || prepDone
  let pd2 := if key = l.maturity_date ∧ prepDone' = false then
      let amt := max 0 (beg - sched)
      let allowable := beg + draw
      if amt > allowable then allowable else amt
    else pd1
  let ending := max 0 (beg + draw - pd2 - sched)
  (⟨beg, draw, pd2, interest, sched, ending, 1⟩, prepDone')

/-- Loop body of Loan.generate_loan_schedule. The arguments after the list of
remaining keys carry the Python loop state: the enumerate index i, prior_key,
the ending balance stored at prior_key, and the prepayment_done flag. The
foreclosure branch and the after-prepayment branch continue without updating
prior_key, so those branches recurse with the prior state unchanged. -/
def genRows (l : Loan) (pay : ℚ) :
    List ℤ → ℕ → ℤ → ℚ → Bool → List (ℤ × Row)
  | [], _, _, _, _ => []
  | key :: rest, i, priorKey, priorEnd, prepDone =>
    if (l.foreclosure_date.map (fun f => decide (f ≤ key))).getD false then
      (key, zeroRow) :: genRows l pay rest (i + 1) priorKey priorEnd prepDone
    else if i = 0 then
      let pd := l.loan_paydowns key
      let row : Row := ⟨0, l.loan_amount, pd, 0, 0, l.loan_amount - pd, 1⟩
      (key, row) :: genRows l pay rest (i + 1) key row.ending_balance prepDone
    else if prepDone && decide (priorEnd ≤ 0) then
      (key, zeroRow) :: genRows l pay rest (i + 1) priorKey priorEnd prepDone
    else
      let rb := normalRow l pay i priorKey key priorEnd prepDone
      (key, rb.1) :: genRows l pay rest (i + 1) key rb.1.ending_balance rb.2

/-- Loan.generate_loan_schedule run on a freshly initialised schedule:
prior_key starts at the fund date, the prior ending balance starts at 0 (the
initialised rows are all zero) and prepayment_done starts False. -/
def generate_loan_schedule (l : Loan) : List (ℤ × Row) :=
  genRows l (calculate_amortizing_payment l l.loan_amount) (monthly_dates l)
    0 l.fund_date 0 false

/-- Commitment truthiness as Python sees it (if self.get_commitment(): a
commitment of None and a commitment of 0 are both falsy). -/
def commitmentTruthy (l : Loan) : Bool :=
  match l.commitment with
  | some c => decide (c ≠ 0)
  | none => false

/-- Baseline unfunded schedule (Loan.initialize_unfunded_schedule) at an
end-of-month date: all zero without a (truthy) commitment; otherwise 0 before
the funding month, commitment minus loan amount on the funding month, and the
full commitment after. -/
def unfundedInit (l : Loan) (m : ℤ) : ℚ :=
  match l.commitment with
  | none => 0
  | some c =>
    if c = 0 then 0
    else if m < l.fund_date then 0
    else if m = l.fund_date then c - l.loan_amount
    else c

/-- Adjusted unfunded schedule (Loan.adjust_unfunded_schedule composed with
the initialisation, i.e. Loan.calculate_unfunded) at position i of
monthly_dates. Without a truthy commitment the adjustment pass returns early
and the initial values stand. -/
def unfundedAt (l : Loan) : ℕ → ℚ
  | 0 =>
    if commitmentTruthy l then
      max 0 (unfundedInit l l.fund_date - l.loan_draws l.fund_date
        + l.loan_paydowns l.fund_date)
    else unfundedInit l l.fund_date
  | i + 1 =>
    if commitmentTruthy l then
      max 0 (unfundedAt l i - l.loan_draws (l.fund_date + (i : ℤ) + 1)
        + l.loan_paydowns (l.fund_date + (i : ℤ) + 1))
    else unfundedInit l (l.fund_date + (i : ℤ) + 1)

/-- Dictionary lookup self.unfunded.get(month): defined on the monthly keys
of the schedule, None elsewhere. -/
def unfundedLookup (l : Loan) (m : ℤ) : Option ℚ :=
  if l.fund_date ≤ m ∧ m ≤ l.maturity_date then
    some (unfundedAt l (m - l.fund_date).toNat)
  else none

/-- Loan.add_loan_draw. The draw date is already normalised to an end of
month (get_end_of_month), hence given as a month index. Returns the drawn
amount together with the resulting loan state; the recomputation of the
unfunded schedule and of the payment schedule performed by the source is
derived functionally from that state. -/
def add_loan_draw (l : Loan) (draw : ℚ) (draw_date_me : ℤ) : ℚ × Loan :=
  if commitmentTruthy l then
    let prior_month := draw_date_me - 1
    let allowable := (unfundedLookup l prior_month).getD 0
    let drawn := min draw allowable
    if 0 < drawn then
      (drawn,
        { l with loan_draws := fun m => if m = draw_date_me then drawn else l.loan_draws m })
    else (0, l)
  else (0, l)

/-- Generating the schedule produces exactly one row per monthly date. -/
theorem genRows_length (l : Loan) (pay : ℚ) :
    ∀ (months : List ℤ) (i : ℕ) (pk : ℤ) (pe : ℚ) (pd : Bool),
      (genRows l pay months i pk pe pd).length = months.length := by
  intro months
  induction months with
  | nil => intro i pk pe pd; simp [genRows]
  | cons k rest ih =>
    intro i pk pe pd
    simp only [genRows]
    split
    · simp [ih]
    · split
      · simp [ih]
      · split
        · simp [ih]
        · simp [ih]

/-- The normal-branch row satisfies the max-floored ending balance relation
among its own fields. -/
theorem normalRow_ending_shape (l : Loan) (pay : ℚ) (i : ℕ) (pk k : ℤ)
    (pe : ℚ) (pd : Bool) :
    (normalRow l pay i pk k pe pd).1.ending_balance =
      max 0 ((normalRow l pay i pk k pe pd).1.beginning_balance
        + (normalRow l pay i pk k pe pd).1.loan_draw
        - (normalRow l pay i pk k pe pd).1.loan_paydown
        - (normalRow l pay i pk k pe pd).1.scheduled_principal_payment) := rfl

/-- Every produced row is a zero row, a funding-month row with ending balance
loan_amount - paydown, or satisfies the max-floored recurrence. -/
theorem genRows_row_shape (l : Loan) (pay : ℚ) :
    ∀ (months : List ℤ) (i : ℕ) (pk : ℤ) (pe : ℚ) (pd : Bool) (e : ℤ × Row),
      e ∈ genRows l pay months i pk pe pd →
      e.2 = zeroRow ∨
      (e.2.beginning_balance = 0 ∧ e.2.loan_draw = l.loan_amount ∧
        e.2.ending_balance = l.loan_amount - e.2.loan_paydown) ∨
      e.2.ending_balance = max 0 (e.2.beginning_balance + e.2.loan_draw
        - e.2.loan_paydown - e.2.scheduled_principal_payment) := by
  intro months
  induction months with
  | nil => intro i pk pe pd e he; simp [genRows] at he
  | cons k rest ih =>
    intro i pk pe pd e he
    simp only [genRows] at he
    split at he
    · rcases List.mem_cons.mp he with h | h
      · left; rw [h]
      · exact ih _ _ _ _ _ h
    · split at he
      · rcases List.mem_cons.mp he with h | h
        · right; left; rw [h]
          exact ⟨rfl, rfl, rfl⟩
        · exact ih _ _ _ _ _ h
      · split at he
        · rcases List.mem_cons.mp he with h | h
          · left; rw [h]
          · exact ih _ _ _ _ _ h
        · rcases List.mem_cons.mp he with h | h
          · right; right; rw [h]
            exact normalRow_ending_shape l pay i pk k pe pd
          · exact ih _ _ _ _ _ h

/-- Rows at or after a set foreclosure date are produced by the foreclosure
branch and are zero rows, whatever the loop state is. -/
theorem genRows_foreclosure (l : Loan) (pay : ℚ) (f : ℤ)
    (hf : l.foreclosure_date = some f) :
    ∀ (months : List ℤ) (i : ℕ) (pk : ℤ) (pe : ℚ) (pd : Bool) (e : ℤ × Row),
      e ∈ genRows l pay months i pk pe pd → f ≤ e.1 → e.2 = zeroRow := by
  intro months
  induction months with
  | nil => intro i pk pe pd e he hk; simp [genRows] at he
  | cons k rest ih =>
    intro i pk pe pd e he hk
    by_cases hfk : f ≤ k
    · have hc : (l.foreclosure_date.map (fun g => decide (g ≤ k))).getD false = true := by
        simp [hf, hfk]
      simp only [genRows, hc, if_true] at he
      rcases List.mem_cons.mp he with h | h
      · rw [h]
      · exact ih _ _ _ _ _ h hk
    · have hc : (l.foreclosure_date.map (fun g => decide (g ≤ k))).getD false = false := by
        simp [hf, hfk]
      simp only [genRows, hc, Bool.false_eq_true, if_false] at he
      split at he
      · rcases List.mem_cons.mp he with h | h
        · exact absurd (by rw [h] at hk; exact hk) hfk
        · exact ih _ _ _ _ _ h hk
      · split at he
        · rcases List.mem_cons.mp he with h | h
          · exact absurd (by rw [h] at hk; exact hk) hfk
          · exact ih _ _ _ _ _ h hk
        · rcases List.mem_cons.mp he with h | h
          · exact absurd (by rw [h] at hk; exact hk) hfk
          · exact ih _ _ _ _ _ h hk

/-- C2: for every loan and every month of its generated schedule, the ending
balance equals max(0, beginning + draw - paydown - scheduled principal),
except in foreclosed or zeroed months, where every field of the row is 0, and
in the funding month, where the ending balance is the loan amount minus any
paydown (the funding row has beginning balance 0 and draw = loan amount). -/
theorem loan_schedule_row_invariant (l : Loan) (e : ℤ × Row)
    (he : e ∈ generate_loan_schedule l) :
    e.2 = zeroRow ∨
    (e.2.beginning_balance = 0 ∧ e.2.loan_draw = l.loan_amount ∧
      e.2.ending_balance = l.loan_amount - e.2.loan_paydown) ∨
    e.2.ending_balance = max 0 (e.2.beginning_balance + e.2.loan_draw
      - e.2.loan_paydown - e.2.scheduled_principal_payment) :=
  genRows_row_shape l _ _ 0 l.fund_date 0 false e he

/-- Plain one-year bullet loan used as a concrete instance for C2. -/
def loanC2w : Loan where
  loan_amount := 100
  rate := 0
  fund_date := 0
  maturity_date := 1
  payment_type := .actual360
  interest_only_periods := 0
  amortizing_periods := 0
  commitment := none
  prepayment_date := none
  foreclosure_date := none
  loan_draws := fun _ => 0
  loan_paydowns := fun _ => 0

/-- Witness for C2 at a concrete loan and row. -/
theorem loan_schedule_row_invariant_witness :
    ((0 : ℤ), (⟨0, 100, 0, 0, 0, 100, 1⟩ : Row)) ∈ generate_loan_schedule loanC2w ∧
    ((⟨0, 100, 0, 0, 0, 100, 1⟩ : Row) = zeroRow ∨
      ((0 : ℚ) = 0 ∧ (100 : ℚ) = loanC2w.loan_amount ∧
        (100 : ℚ) = loanC2w.loan_amount - 0) ∨
      (100 : ℚ) = max 0 ((0 : ℚ) + 100 - 0 - 0)) := by
  have hm : ((0 : ℤ), (⟨0, 100, 0, 0, 0, 100, 1⟩ : Row)) ∈ generate_loan_schedule loanC2w := by
    simp [generate_loan_schedule, genRows, monthly_dates, monthsCount, loanC2w,
      calculate_amortizing_payment, List.range_succ]
  exact ⟨hm, loan_schedule_row_invariant loanC2w _ hm⟩

/-- C3: with a foreclosure date set, every schedule month on or after it is a
zero row (all balance and cash-flow fields 0 and encumbered 0), regardless of
the loop state carried into it; the foreclosure branch takes precedence over
the funding-month, prepayment and maturity logic because the produced row is
zero whatever the index, prepayment date and maturity date are. -/
theorem foreclosure_zeroes_schedule (l : Loan) (f : ℤ)
    (hf : l.foreclosure_date = some f) (e : ℤ × Row)
    (he : e ∈ generate_loan_schedule l) (hk : f ≤ e.1) : e.2 = zeroRow :=
  genRows_foreclosure l _ f hf _ 0 l.fund_date 0 false e he hk

/-- Loan foreclosed one month after funding, used as a concrete instance for
C3. -/
def loanC3w : Loan where
  loan_amount := 100
  rate := 0
  fund_date := 0
  maturity_date := 2
  payment_type := .actual360
  interest_only_periods := 0
  amortizing_periods := 0
  commitment := none
  prepayment_date := none
  foreclosure_date := some 1
  loan_draws := fun _ => 0
  loan_paydowns := fun _ => 0

/-- Witness for C3 at a concrete foreclosed loan. -/
theorem foreclosure_zeroes_schedule_witness :
    loanC3w.foreclosure_date = some 1 ∧
    ((1 : ℤ), zeroRow) ∈ generate_loan_schedule loanC3w ∧
    (((1 : ℤ), zeroRow) : ℤ × Row).2 = zeroRow := by
  have hm : ((1 : ℤ), zeroRow) ∈ generate_loan_schedule loanC3w := by
    simp [generate_loan_schedule, genRows, monthly_dates, monthsCount, loanC3w,
      calculate_amortizing_payment, List.range_succ]
  exact ⟨rfl, hm, foreclosure_zeroes_schedule loanC3w 1 rfl _ hm (le_refl 1)⟩

/-- C10: add_loan_draw on a loan without a commitment returns 0 and leaves
the loan state, its draw dictionary, its unfunded schedule and its generated
payment schedule unchanged. -/
theorem add_loan_draw_no_commitment (l : Loan) (draw : ℚ) (d : ℤ)
    (h : l.commitment = none) :
    (add_loan_draw l draw d).1 = 0 ∧
    (add_loan_draw l draw d).2 = l ∧
    (add_loan_draw l draw d).2.loan_draws = l.loan_draws ∧
    unfundedAt (add_loan_draw l draw d).2 = unfundedAt l ∧
    generate_loan_schedule (add_loan_draw l draw d).2 = generate_loan_schedule l := by
  have ht : commitmentTruthy l = false := by simp [commitmentTruthy, h]
  have hl : add_loan_draw l draw d = (0, l) := by
    simp [add_loan_draw, ht]
  rw [hl]
  exact ⟨rfl, rfl, rfl, rfl, rfl⟩

/-- Witness for C10 at a concrete commitment-free loan. -/
theorem add_loan_draw_no_commitment_witness :
    (add_loan_draw loanC2w 50 1).1 = 0 ∧
    (add_loan_draw loanC2w 50 1).2 = loanC2w ∧
    (add_loan_draw loanC2w 50 1).2.loan_draws = loanC2w.loan_draws ∧
    unfundedAt (add_loan_draw loanC2w 50 1).2 = unfundedAt loanC2w ∧
    generate_loan_schedule (add_loan_draw loanC2w 50 1).2 =
      generate_loan_schedule loanC2w :=
  add_loan_draw_no_commitment loanC2w 50 1 rfl

/-- In the normal branch at the maturity month with no prepayment date, no
draw that month and prepayment_done still false, the maturity paydown clears
the balance: the ending balance is exactly 0. -/
theorem normalRow_maturity_ending (l : Loan) (pay : ℚ) (i : ℕ) (pk : ℤ) (pe : ℚ)
    (hprep : l.prepayment_date = none)
    (hdraw : l.loan_draws l.maturity_date = 0) :
    (normalRow l pay i pk l.maturity_date pe false).1.ending_balance = 0 := by
  simp [normalRow, hprep, hdraw]
  set S := (if 0 < l.amortizing_periods ∧ l.interest_only_periods < i then
      (0 ⊔ (pay - calculate_interest l (0 ⊔ pe) pk l.maturity_date)) ⊓ (0 ⊔ pe)
    else 0) with hS
  have hS0 : 0 ≤ S := by
    rw [hS]; split
    · exact le_min (le_max_left _ _) (le_max_left _ _)
    · exact le_refl 0
  have hM0 : (0 : ℚ) ≤ 0 ⊔ pe := le_max_left 0 pe
  have hMpe : pe ≤ 0 ⊔ pe := le_max_right 0 pe
  have hrem0 : (0 : ℚ) ≤ 0 ⊔ (0 ⊔ pe - S) := le_max_left _ _
  have hrem : 0 ⊔ pe - S ≤ 0 ⊔ (0 ⊔ pe - S) := le_max_right _ _
  refine ⟨?_, ?_⟩ <;> split <;> linarith

/-- Auxiliary: getLast? skips the head when the tail is nonempty. -/
theorem getLast?_cons_of_ne_nil {α : Type} (a : α) {t : List α} (h : t ≠ []) :
    (a :: t).getLast? = t.getLast? := by
  cases t with
  | nil => exact absurd rfl h
  | cons b u => exact List.getLast?_cons_cons

/-- With no prepayment date the prepayment_done flag stays false through the
normal branch. -/
theorem normalRow_prepDone (l : Loan) (pay : ℚ) (i : ℕ) (pk k : ℤ) (pe : ℚ)
    (hprep : l.prepayment_date = none) :
    (normalRow l pay i pk k pe false).2 = false := by
  simp [normalRow, hprep]

/-- For a loan with no foreclosure and no prepayment date and no draw in the
maturity month, the last generated row (the maturity month, provided the
month list ends there and it is not the funding month) has ending balance 0:
the maturity paydown clears the loan. -/
theorem genRows_last_ending (l : Loan) (pay : ℚ)
    (hfc : l.foreclosure_date = none) (hprep : l.prepayment_date = none)
    (hdraw : l.loan_draws l.maturity_date = 0) :
    ∀ (months : List ℤ) (i : ℕ) (pk : ℤ) (pe : ℚ),
      months.getLast? = some l.maturity_date → 2 ≤ i + months.length →
      ∀ e, (genRows l pay months i pk pe false).getLast? = some e →
        e.2.ending_balance = 0 := by
  intro months
  induction months with
  | nil => intro i pk pe hlast hlen e hget; simp at hlast
  | cons k rest ih =>
    intro i pk pe hlast hlen e hget
    have h1 : (Option.map (fun g => decide (g ≤ k)) l.foreclosure_date).getD false = false := by
      simp [hfc]
    cases rest with
    | nil =>
      have hk : k = l.maturity_date := by simpa using hlast
      have hi : i ≠ 0 := by simp at hlen; omega
      subst hk
      simp only [genRows, h1, Bool.false_eq_true, if_false, if_neg hi,
        Bool.false_and, List.getLast?_singleton, Option.some.injEq] at hget
      rw [← hget]
      exact normalRow_maturity_ending l pay i pk pe hprep hdraw
    | cons k2 rest2 =>
      set t := k2 :: rest2 with htdef
      clear_value t
      have htne : t ≠ [] := by rw [htdef]; simp
      have hlast2 : t.getLast? = some l.maturity_date := by
        rw [getLast?_cons_of_ne_nil k htne] at hlast; exact hlast
      have hne : ∀ (j : ℕ) (a : ℤ) (b : ℚ) (c : Bool),
          genRows l pay t j a b c ≠ [] := by
        intro j a b c h
        have hl := genRows_length l pay t j a b c
        rw [h] at hl
        exact htne (List.length_eq_zero.mp hl.symm)
      have htpos : 0 < t.length := List.length_pos.mpr htne
      have hlen2 : 2 ≤ (i + 1) + t.length := by omega
      simp only [genRows] at hget
      split at hget
      · rw [getLast?_cons_of_ne_nil _ (hne _ _ _ _)] at hget
        exact ih (i + 1) pk pe hlast2 hlen2 e hget
      · split at hget
        · rw [getLast?_cons_of_ne_nil _ (hne _ _ _ _)] at hget
          exact ih (i + 1) k _ hlast2 hlen2 e hget
        · split at hget
          · rw [getLast?_cons_of_ne_nil _ (hne _ _ _ _)] at hget
            exact ih (i + 1) pk pe hlast2 hlen2 e hget
          · rw [getLast?_cons_of_ne_nil _ (hne _ _ _ _),
              normalRow_prepDone l pay i pk k pe hprep] at hget
            exact ih (i + 1) k _ hlast2 hlen2 e hget

/-- The generated schedule has exactly one row per month between funding and
maturity, inclusive. -/
theorem generate_loan_schedule_length (l : Loan) :
    (generate_loan_schedule l).length = monthsCount l := by
  rw [generate_loan_schedule, genRows_length, monthly_dates]
  exact (List.length_map _ _).trans (List.length_range _)

/-- First generated row of a non-foreclosed loan: the funding month, with
beginning balance 0, the whole loan amount drawn, and ending balance equal to
the loan amount minus any paydown recorded for that month. -/
theorem generate_loan_schedule_head (l : Loan) (hfc : l.foreclosure_date = none) :
    (generate_loan_schedule l).headI =
      (l.fund_date, ⟨0, l.loan_amount, l.loan_paydowns l.fund_date, 0, 0,
        l.loan_amount - l.loan_paydowns l.fund_date, 1⟩) := by
  simp [generate_loan_schedule, monthly_dates, monthsCount,
    List.range_succ_eq_map, genRows, hfc]

/-- The loan of C4: 1,000,000 at 6 percent, funded 2024-01-31 (month index
12 * 2024 + 0 = 24288), maturing 2025-01-31 (month index 24300),
Actual/360, no interest-only periods, 12 amortizing periods, no commitment,
no prepayment, no foreclosure, no extra draws or paydowns. -/
def loanC4 : Loan where
  loan_amount := 1000000
  rate := 6/100
  fund_date := 24288
  maturity_date := 24300
  payment_type := .actual360
  interest_only_periods := 0
  amortizing_periods := 12
  commitment := none
  prepayment_date := none
  foreclosure_date := none
  loan_draws := fun _ => 0
  loan_paydowns := fun _ => 0

/-- C4 counterexample: the schedule of the C4 loan has 13 rows, not 12 (the
months 2024-01 through 2025-01 inclusive), and the level amortizing payment
differs from the claimed 86,065.82 by more than 0.50. -/
theorem loanC4_claim_refuted :
    (generate_loan_schedule loanC4).length ≠ 12 ∧
    |calculate_amortizing_payment loanC4 1000000 - 8606582/100| > 1/2 := by
  constructor
  · rw [generate_loan_schedule_length]
    simp [monthsCount, loanC4]
  · simp only [calculate_amortizing_payment, loanC4, gt_iff_lt, lt_abs]
    norm_num

/-- C4 amended: the C4 loan produces a 13-row schedule whose first row has
loan_draw = 1,000,000 and beginning_balance = 0, whose level amortizing
payment is within 0.01 of 86,066.43 (the annuity formula at monthly rate
0.005 over 12 payments), and whose final row has ending balance exactly 0. -/
theorem loanC4_schedule_facts :
    (generate_loan_schedule loanC4).length = 13 ∧
    (generate_loan_schedule loanC4).headI.2.loan_draw = 1000000 ∧
    (generate_loan_schedule loanC4).headI.2.beginning_balance = 0 ∧
    |calculate_amortizing_payment loanC4 1000000 - 8606643/100| < 1/100 ∧
    ((generate_loan_schedule loanC4).getLast?).map (fun e => e.2.ending_balance)
      = some 0 := by
  have hlen : (generate_loan_schedule loanC4).length = 13 := by
    rw [generate_loan_schedule_length]
    simp [monthsCount, loanC4]
  refine ⟨hlen, ?_, ?_, ?_, ?_⟩
  · rw [generate_loan_schedule_head loanC4 rfl]
    rfl
  · rw [generate_loan_schedule_head loanC4 rfl]
  · simp only [calculate_amortizing_payment, loanC4, abs_lt]
    norm_num
  · cases hg : (generate_loan_schedule loanC4).getLast? with
    | none =>
      rw [List.getLast?_eq_none_iff] at hg
      rw [hg] at hlen
      simp at hlen
    | some e =>
      have hlast : (monthly_dates loanC4).getLast? = some loanC4.maturity_date := by
        simp [monthly_dates, monthsCount, loanC4, List.range_succ]
      have hmlen : 2 ≤ 0 + (monthly_dates loanC4).length := by
        rw [monthly_dates]
        rw [List.length_map, List.length_range]
        simp [monthsCount, loanC4]
      rw [generate_loan_schedule] at hg
      have := genRows_last_ending loanC4
        (calculate_amortizing_payment loanC4 loanC4.loan_amount) rfl rfl rfl
        (monthly_dates loanC4) 0 loanC4.fund_date 0 hlast hmlen e hg
      simp [this]

/-- Nearest integer with ties to even, the rounding used by Python round. -/
noncomputable def roundHalfEven (x : ℝ) : ℤ :=
  if x - ⌊x⌋ < 1 / 2 then ⌊x⌋
  else if 1 / 2 < x - ⌊x⌋ then ⌊x⌋ + 1
  else if Even ⌊x⌋ then ⌊x⌋ else ⌊x⌋ + 1

/-- Python round(x, nd) on the real idealisation of floats. -/
noncomputable def pyRound (nd : ℕ) (x : ℝ) : ℝ :=
  (roundHalfEven (x * 10 ^ nd) : ℝ) / 10 ^ nd

/-- Rounding an integer changes nothing. -/
theorem roundHalfEven_intCast (k : ℤ) : roundHalfEven (k : ℝ) = k := by
  simp [roundHalfEven]

/-- pyRound is the identity on values that are integer multiples of the last
kept decimal place. -/
theorem pyRound_of_mul_eq (nd : ℕ) (x : ℝ) (k : ℤ) (h : x * 10 ^ nd = (k : ℝ)) :
    pyRound nd x = x := by
  have h10 : (10 : ℝ) ^ nd ≠ 0 := by positivity
  rw [pyRound, h, roundHalfEven_intCast, ← h]
  field_simp

/-- pyRound maps 0 to 0. -/
theorem pyRound_zero (nd : ℕ) : pyRound nd 0 = 0 :=
  pyRound_of_mul_eq nd 0 0 (by norm_num)

/-- math.isclose(a, b, rel_tol) with the default absolute tolerance 0. -/
def mathIsClose (a b relTol : ℝ) : Prop :=
  |a - b| ≤ max (relTol * max |a| |b|) 0

/-- Container for the parameters of one waterfall tier (TierParams). The
decimal inputs are held as rationals and cast to the reals where they enter
the float arithmetic; gp_dist_ratio is the derived property 1 - lp. -/
structure TierParams where
  lp_dist_ratio : ℚ
  hurdle_rate : ℚ
deriving DecidableEq, Repr

/-- GP distribution ratio, computed as 1 - LP distribution ratio. -/
def TierParams.gp_dist_ratio (t : TierParams) : ℚ := 1 - t.lp_dist_ratio

instance : Inhabited TierParams := ⟨⟨1, 0⟩⟩

/-- CarriedInterest.day_count_fraction. Deal dates are modelled by their day
numbers, so the Python date subtraction is integer subtraction. -/
noncomputable def day_count_fraction (d1 d0 : ℤ) : ℝ := ((d1 - d0 : ℤ) : ℝ) / 365

/-- CarriedInterest.xnpv. For a rate at or below -1 the source returns
float('inf'); that unreachable-for-these-claims sentinel is modelled as 0. -/
noncomputable def xnpv (rate : ℝ) (cash_flows : List ℝ) (dates : List ℤ) : ℝ :=
  if rate ≤ -1 then 0
  else
    pyRound 10 (((cash_flows.zip dates).map
      (fun p => p.1 / Real.rpow (1 + rate) (day_count_fraction p.2 dates.headI))).sum)

/-- Modelled from the spec: CarriedInterest.xirr calls scipy.optimize.newton,
which is not part of this repository; per the spec it is Newton-Raphson on
xnpv with tolerance 1e-12 that either converges to a root or raises a
RuntimeError on non-convergence. Its outcome is therefore a parameter: ok
with the found rate, or error on non-convergence. xirr returns 0.0 on empty
inputs, catches the RuntimeError and falls back to the default 0.0, and
rounds the result to 10 decimal places. -/
noncomputable def xirr (newton_outcome : Except Unit ℝ) (cash_flows : List ℝ)
    (dates : List ℤ) : ℝ :=
  if cash_flows = [] ∨ dates = [] then 0
  else
    match newton_outcome with
    | .ok irr => pyRound 10 irr
    | .error _ => pyRound 10 0

/-- CarriedInterest._future_value at index upTo of cf_array: minus the
net present value of the entries up to that index, carried forward to the
date at that index, rounded to 10 decimal places. -/
noncomputable def future_value (deal_dates : List ℤ) (upTo : ℕ)
    (cf_array : List ℝ) (rate : ℝ) : ℝ :=
  let d0 := deal_dates.headI
  let npv := ((List.range (upTo + 1)).map (fun j =>
    cf_array.getD j 0 /
      Real.rpow (1 + rate) (day_count_fraction (deal_dates.getD j 0) d0))).sum
  pyRound 10 ((-npv) *
    Real.rpow (1 + rate) (day_count_fraction (deal_dates.getD upTo 0) d0))

/-- CarriedInterest._initial_allocation: negative flows are split by the
first tier's ratios, other flows start at zero. Returns the pair
(lp_cash_flows, gp_cash_flows). -/
noncomputable def initial_allocation (first_tier : TierParams)
    (deal_cash_flows : List ℝ) : List ℝ × List ℝ :=
  (deal_cash_flows.map
      (fun cf => if cf < 0 then cf * (first_tier.lp_dist_ratio : ℝ) else 0),
   deal_cash_flows.map
      (fun cf => if cf < 0 then cf * (first_tier.gp_dist_ratio : ℝ) else 0))

/-- Inner tier loop of CarriedInterest._tier_distribution at index i: for
each tier in turn, allocate min(required future value, remaining cash * lp
ratio) to the LP and the proportional gp/lp share to the GP, subtract both
from the remaining cash, and break once the remaining cash is at most 1e-12.
Returns the updated lp and gp lists together with the remaining cash. -/
noncomputable def tierAllocLoop (deal_dates : List ℤ) (i : ℕ) :
    List TierParams → List ℝ → List ℝ → ℝ → List ℝ × List ℝ × ℝ
  | [], lp, gp, rem => (lp, gp, rem)
  | t :: rest, lp, gp, rem =>
    let required_fv := future_value deal_dates i lp (t.hurdle_rate : ℝ)
    let alloc_lp := min required_fv (rem * (t.lp_dist_ratio : ℝ))
    let alloc_gp := alloc_lp * ((t.gp_dist_ratio : ℝ) / (t.lp_dist_ratio : ℝ))
    let lp2 := lp.set i (lp.getD i 0 + alloc_lp)
    let gp2 := gp.set i (gp.getD i 0 + alloc_gp)
    let rem2 := rem - (alloc_lp + alloc_gp)
    if rem2 ≤ 1 / 10 ^ 12 then (lp2, gp2, rem2)
    else tierAllocLoop deal_dates i rest lp2 gp2 rem2

/-- One index of CarriedInterest._tier_distribution: a positive flow is run
through the tiers, and a remainder above 1e-12 after all tiers is split by
the last tier's ratios; non-positive flows are left untouched. -/
noncomputable def distributeIndex (tiers : List TierParams)
    (deal_dates : List ℤ) (deal_cash_flows : List ℝ) (i : ℕ)
    (lp gp : List ℝ) : List ℝ × List ℝ :=
  let cf := deal_cash_flows.getD i 0
  if 0 < cf then
    let r := tierAllocLoop deal_dates i tiers lp gp cf
    if 1 / 10 ^ 12 < r.2.2 then
      let last_tier := tiers.getLastD default
      (r.1.set i (r.1.getD i 0 + r.2.2 * (last_tier.lp_dist_ratio : ℝ)),
       r.2.1.set i (r.2.1.getD i 0 + r.2.2 * (last_tier.gp_dist_ratio : ℝ)))
    else (r.1, r.2.1)
  else (lp, gp)

/-- CarriedInterest._tier_distribution: every index, in order. -/
noncomputable def tier_distribution (tiers : List TierParams)
    (deal_dates : List ℤ) (deal_cash_flows : List ℝ) (lp gp : List ℝ) :
    List ℝ × List ℝ :=
  (List.range deal_cash_flows.length).foldl
    (fun s i => distributeIndex tiers deal_dates deal_cash_flows i s.1 s.2)
    (lp, gp)

/-- The allocation part of CarriedInterest.calculate: the initial allocation
followed by the tier distribution, producing the final lp_cash_flows and
gp_cash_flows. -/
noncomputable def waterfall (tiers : List TierParams) (deal_dates : List ℤ)
    (deal_cash_flows : List ℝ) : List ℝ × List ℝ :=
  let init := initial_allocation tiers.headI deal_cash_flows
  tier_distribution tiers deal_dates deal_cash_flows init.1 init.2

/-- Insertion of an integer into an ascending-sorted list. -/
def insertSortedInt (d : ℤ) : List ℤ → List ℤ
  | [] => [d]
  | a :: rest => if d ≤ a then d :: a :: rest else a :: insertSortedInt d rest

/-- Ascending sort of integer keys, as Python sorted produces. -/
def sortInts (l : List ℤ) : List ℤ := l.foldr insertSortedInt []

/-- sum_cash_flows_by_date: flows are summed per date and the unique dates
are returned in ascending order. The source also skips entries whose date is
None or whose flow is NaN; dates are modelled as integers and flows as
reals, so no such entries exist in the model. -/
noncomputable def sum_cash_flows_by_date (dates : List ℤ)
    (cash_flows : List ℝ) : List ℤ × List ℝ :=
  let pairs := dates.zip cash_flows
  let keys := sortInts (pairs.map Prod.fst).dedup
  (keys, keys.map (fun d =>
    ((pairs.filter (fun p => decide (p.1 = d))).map Prod.snd).sum))

/-- Sum of the strictly positive entries of a list (the distribution totals
of CarriedInterest._compute_irr_multiple). -/
noncomputable def sumPos (l : List ℝ) : ℝ :=
  (l.filter (fun cf => decide (0 < cf))).sum

/-- LP effective share as computed by CarriedInterest._compute_irr_multiple:
the first tier's ratio for a single flow, else LP distributions over deal
distributions when the latter are positive, else the first tier's ratio. -/
noncomputable def lp_effective_share (tiers : List TierParams)
    (deal_cash_flows lp_cash_flows : List ℝ) : ℝ :=
  if deal_cash_flows.length = 1 then (tiers.headI.lp_dist_ratio : ℝ)
  else if 0 < sumPos deal_cash_flows then
    sumPos lp_cash_flows / sumPos deal_cash_flows
  else (tiers.headI.lp_dist_ratio : ℝ)

/-- GP effective share as computed by CarriedInterest._compute_irr_multiple. -/
noncomputable def gp_effective_share (tiers : List TierParams)
    (deal_cash_flows gp_cash_flows : List ℝ) : ℝ :=
  if deal_cash_flows.length = 1 then 1 - (tiers.headI.lp_dist_ratio : ℝ)
  else if 0 < sumPos deal_cash_flows then
    sumPos gp_cash_flows / sumPos deal_cash_flows
  else 1 - (tiers.headI.lp_dist_ratio : ℝ)

/-- Values in [0, 1/2) round down to 0. -/
theorem roundHalfEven_of_lt_half (x : ℝ) (h0 : 0 ≤ x) (h : x < 1 / 2) :
    roundHalfEven x = 0 := by
  have hf : ⌊x⌋ = 0 := Int.floor_eq_zero_iff.mpr ⟨h0, by linarith⟩
  rw [roundHalfEven, hf]
  simp only [Int.cast_zero, sub_zero]
  rw [if_pos h]

/-- C6 counterexample: at rate 0, xnpv of the single flow 1e-11 is 0 (the
source rounds to 10 decimal places), not the plain sum 1e-11. -/
theorem xnpv_zero_rate_claim_refuted :
    xnpv 0 [(1 : ℝ) / 10 ^ 11] [(0 : ℤ)] ≠ [(1 : ℝ) / 10 ^ 11].sum := by
  have hterm : xnpv 0 [(1 : ℝ) / 10 ^ 11] [(0 : ℤ)] = pyRound 10 ((1 : ℝ) / 10 ^ 11) := by
    rw [xnpv, if_neg (by norm_num)]
    congr 1
    simp [Real.one_rpow]
  have hr : pyRound 10 ((1 : ℝ) / 10 ^ 11) = 0 := by
    rw [pyRound]
    have hx : (1 : ℝ) / 10 ^ 11 * 10 ^ 10 = 1 / 10 := by norm_num
    rw [hx, roundHalfEven_of_lt_half (1 / 10) (by norm_num) (by norm_num)]
    norm_num
  rw [hterm, hr]
  simp
  norm_num

/-- C6 amended: at rate 0, xnpv equals the plain sum of the flows rounded to
10 decimal places, for equal-length inputs with at least one dated flow. -/
theorem xnpv_zero_rate (cash_flows : List ℝ) (dates : List ℤ)
    (hlen : cash_flows.length = dates.length) (_hne : dates ≠ []) :
    xnpv 0 cash_flows dates = pyRound 10 cash_flows.sum := by
  rw [xnpv, if_neg (by norm_num)]
  congr 1
  have hmap : (cash_flows.zip dates).map
      (fun p => p.1 / Real.rpow (1 + 0) (day_count_fraction p.2 dates.headI)) =
      (cash_flows.zip dates).map Prod.fst := by
    apply List.map_congr_left
    intro p hp
    simp [Real.one_rpow]
  rw [hmap, List.map_fst_zip _ _ (le_of_eq hlen)]

/-- Witness for the amended C6 at a concrete two-flow series. -/
theorem xnpv_zero_rate_witness :
    [(2 : ℝ), 3].length = [(0 : ℤ), 5].length ∧ ([(0 : ℤ), 5] ≠ []) ∧
    xnpv 0 [(2 : ℝ), 3] [(0 : ℤ), 5] = pyRound 10 ([(2 : ℝ), 3].sum) :=
  ⟨rfl, by simp, xnpv_zero_rate [(2 : ℝ), 3] [(0 : ℤ), 5] rfl (by simp)⟩

/-- C7: xirr returns 0.0 when either input list is empty, and when the root
finder fails to converge it returns 0.0 instead of propagating the error;
the function is total, returning a value for every input. -/
theorem xirr_fallback (newton_outcome : Except Unit ℝ) (cash_flows : List ℝ)
    (dates : List ℤ) :
    (cash_flows = [] → xirr newton_outcome cash_flows dates = 0) ∧
    (dates = [] → xirr newton_outcome cash_flows dates = 0) ∧
    (∀ e, newton_outcome = .error e → xirr newton_outcome cash_flows dates = 0) := by
  refine ⟨?_, ?_, ?_⟩
  · intro h; simp [xirr, h]
  · intro h; simp [xirr, h]
  · intro e h
    rw [xirr.eq_def]
    split
    · rfl
    · rw [h]
      exact pyRound_zero 10

/-- Witness for C7: a failed root finder on nonempty inputs yields 0. -/
theorem xirr_fallback_witness :
    xirr (Except.error ()) [(1 : ℝ)] [(0 : ℤ)] = 0 :=
  (xirr_fallback (Except.error ()) [(1 : ℝ)] [(0 : ℤ)]).2.2 () rfl

/-- Property.get_effective_share_adjustment: 0 for a stated share of 0, the
grossed-up dilution difference for stated shares strictly below 1, and 0 for
stated shares of 1 and above. -/
def get_effective_share_adjustment (stated_value stated_share effective_share : ℚ) : ℚ :=
  if stated_share = 0 then 0
  else if stated_share < 1 then
    stated_value / stated_share * effective_share - stated_value
  else 0

/-- C9 counterexample: at stated value 1, stated share 2 and effective share
1 the source returns 0, while the claimed formula (v/s)*e - v gives -1/2. -/
theorem effective_share_adjustment_claim_refuted :
    get_effective_share_adjustment 1 2 1 = 0 ∧ (1 : ℚ) / 2 * 1 - 1 ≠ 0 := by
  constructor
  · rw [get_effective_share_adjustment]
    norm_num
  · norm_num

/-- C9 amended: the dilution adjustment is 0 when the stated share is 0,
(v/s)*e - v when the stated share is nonzero and strictly below 1, and 0
when the stated share is 1 or more. -/
theorem effective_share_adjustment_cases (v s e : ℚ) :
    (s = 0 → get_effective_share_adjustment v s e = 0) ∧
    (s ≠ 0 → s < 1 → get_effective_share_adjustment v s e = v / s * e - v) ∧
    (1 ≤ s → get_effective_share_adjustment v s e = 0) := by
  refine ⟨?_, ?_, ?_⟩
  · intro h; simp [get_effective_share_adjustment, h]
  · intro h0 h1; simp [get_effective_share_adjustment, h0, h1]
  · intro h1
    have hs0 : s ≠ 0 := by intro h; rw [h] at h1; norm_num at h1
    simp [get_effective_share_adjustment, hs0, not_lt.mpr h1]

/-- Witness for the amended C9 in the grossed-up branch. -/
theorem effective_share_adjustment_cases_witness :
    get_effective_share_adjustment 4 (1/2) (3/4) = 4 / (1/2) * (3/4) - 4 :=
  (effective_share_adjustment_cases 4 (1/2) (3/4)).2.1 (by norm_num) (by norm_num)

/-- A calendar date that may fall anywhere in a month: month index together
with day of month, ordered lexicographically. -/
structure PDate where
  ym : ℤ
  day : ℤ
deriving DecidableEq, Repr

/-- Date order (strict). -/
def PDate.lt (a b : PDate) : Prop := a.ym < b.ym ∨ (a.ym = b.ym ∧ a.day < b.day)

/-- Date order (non-strict). -/
def PDate.le (a b : PDate) : Prop := a.ym < b.ym ∨ (a.ym = b.ym ∧ a.day ≤ b.day)

instance (a b : PDate) : Decidable (PDate.lt a b) :=
  inferInstanceAs (Decidable (_ ∨ _))

instance (a b : PDate) : Decidable (PDate.le a b) :=
  inferInstanceAs (Decidable (_ ∨ _))

/-- Property.get_last_day_of_month. -/
def endOfMonth (d : PDate) : PDate := ⟨d.ym, daysInMonthIdx d.ym⟩

/-- date + relativedelta(months=n): the month index advances and the day is
clamped to the length of the target month. -/
def addMonths (d : PDate) (n : ℤ) : PDate :=
  ⟨d.ym + n, min d.day (daysInMonthIdx (d.ym + n))⟩

/-- Stable insertion of a dated event into a list sorted by date. -/
def insertEvent (x : PDate × ℚ) : List (PDate × ℚ) → List (PDate × ℚ)
  | [] => [x]
  | y :: rest => if PDate.lt x.1 y.1 then x :: y :: rest else y :: insertEvent x rest

/-- Stable ascending sort by date, as Python list.sort(key=date). -/
def sortEvents (l : List (PDate × ℚ)) : List (PDate × ℚ) := l.foldr insertEvent []

/-- The ownership-timeline slice of a Property object. The source field
names are acquisition_date, disposition_date, ownership,
partner_buyout_date, partner_buyout_percent and the partial-sale date and
percent (the last two abbreviated here as psale). The stored acquisition
and disposition dates are already normalised to ends of months by the
constructor. -/
structure Property where
  acquisition_date : Option PDate
  disposition_date : Option PDate
  ownership : ℚ
  pbuyout_date : Option PDate
  pbuyout_percent : ℚ
  psale_date : Option PDate
  psale_percent : ℚ

/-- Property.process_ownership_events: the acquisition event at the stored
acquisition date, a zero-ownership event at the end of the month after the
disposition, then (sorted, with the running ownership) the buyout and
partial-sale events when their date is set and their percent nonzero; the
events are sorted by date once more and every event date is normalised to
an end of month. -/
def process_ownership_events (p : Property) : List (PDate × ℚ) :=
  let ev0 : List (PDate × ℚ) :=
    (match p.acquisition_date with
     | some a => [(a, p.ownership)]
     | none => []) ++
    (match p.disposition_date with
     | some dd => [(endOfMonth (addMonths dd 1), 0)]
     | none => [])
  let ev1 := sortEvents ev0
  let cur0 := p.ownership
  let state1 : List (PDate × ℚ) × ℚ :=
    match p.pbuyout_date with
    | some bd =>
      if p.pbuyout_percent ≠ 0 then
        (ev1 ++ [(endOfMonth bd, min (cur0 + p.pbuyout_percent) 1)],
          min (cur0 + p.pbuyout_percent) 1)
      else (ev1, cur0)
    | none => (ev1, cur0)
  let ev3 : List (PDate × ℚ) :=
    match p.psale_date with
    | some sd =>
      if p.psale_percent ≠ 0 then
        state1.1 ++ [(endOfMonth (addMonths sd 1), max (state1.2 - p.psale_percent) 0)]
      else state1.1
    | none => state1.1
  (sortEvents ev3).map (fun e => (endOfMonth e.1, e.2))

/-- The lookup loop of Property.get_ownership_share: walk the reversed
change list and return the ownership of the first change whose date is at or
before the query date; 0 when none is. -/
def lookupShareRev (q : PDate) : List (PDate × ℚ) → ℚ
  | [] => 0
  | (d, o) :: rest => if PDate.le d q then o else lookupShareRev q rest

/-- Property.get_ownership_share: events are (re)processed, then looked up
in reverse chronological order. -/
def get_ownership_share (p : Property) (q : PDate) : ℚ :=
  lookupShareRev q (process_ownership_events p).reverse

/-- C8: with an acquisition and a disposition date and no buyout or partial
sale, the ownership share is 0 strictly before the acquisition month-end,
the initial ownership on the acquisition month-end, and 0 from the month-end
following the disposition month onward. -/
theorem get_ownership_share_timeline (p : Property) (a dd q : PDate)
    (ha : p.acquisition_date = some a) (hd : p.disposition_date = some dd)
    (hb : p.pbuyout_date = none) (hs : p.psale_date = none)
    (had : a.ym ≤ dd.ym) :
    (PDate.lt q (endOfMonth a) → get_ownership_share p q = 0) ∧
    get_ownership_share p (endOfMonth a) = p.ownership ∧
    (PDate.le (endOfMonth (addMonths dd 1)) q → get_ownership_share p q = 0) := by
  have hlt : PDate.lt a (endOfMonth (addMonths dd 1)) := by
    left
    simp only [endOfMonth, addMonths]
    omega
  have hev : process_ownership_events p =
      [(endOfMonth a, p.ownership), (endOfMonth (addMonths dd 1), 0)] := by
    rw [process_ownership_events]
    simp only [ha, hd, hb, hs]
    have hlt2 := hlt
    simp only [endOfMonth] at hlt2
    simp [sortEvents, insertEvent, hlt, hlt2, endOfMonth]
  have hshare : ∀ r, get_ownership_share p r =
      if PDate.le (endOfMonth (addMonths dd 1)) r then 0
      else if PDate.le (endOfMonth a) r then p.ownership else 0 := by
    intro r
    rw [get_ownership_share, hev]
    simp [lookupShareRev]
  refine ⟨?_, ?_, ?_⟩
  · intro hq
    have h2 : ¬ PDate.le (endOfMonth (addMonths dd 1)) q := by
      intro h2
      simp only [PDate.le, PDate.lt, endOfMonth, addMonths] at hq h2
      omega
    have h1 : ¬ PDate.le (endOfMonth a) q := by
      intro h1
      simp only [PDate.le, PDate.lt, endOfMonth, addMonths] at hq h1
      omega
    rw [hshare q, if_neg h2, if_neg h1]
  · have h2 : ¬ PDate.le (endOfMonth (addMonths dd 1)) (endOfMonth a) := by
      simp only [PDate.le, endOfMonth, addMonths]
      omega
    have h1 : PDate.le (endOfMonth a) (endOfMonth a) := Or.inr ⟨rfl, le_refl _⟩
    rw [hshare, if_neg h2, if_pos h1]
  · intro hq
    rw [hshare q, if_pos hq]

/-- Concrete property for the C8 witness: acquired 2024-01-31, disposed
2024-03-31, 60 percent ownership, no buyout, no partial sale. -/
def propC8w : Property :=
  ⟨some ⟨24288, 31⟩, some ⟨24290, 31⟩, 6/10, none, 0, none, 0⟩

/-- Witness for C8 at the concrete property and the query date 2024-08-01. -/
theorem get_ownership_share_timeline_witness :
    (PDate.lt ⟨24295, 1⟩ (endOfMonth ⟨24288, 31⟩) →
      get_ownership_share propC8w ⟨24295, 1⟩ = 0) ∧
    get_ownership_share propC8w (endOfMonth ⟨24288, 31⟩) = propC8w.ownership ∧
    (PDate.le (endOfMonth (addMonths ⟨24290, 31⟩ 1)) ⟨24295, 1⟩ →
      get_ownership_share propC8w ⟨24295, 1⟩ = 0) :=
  get_ownership_share_timeline propC8w ⟨24288, 31⟩ ⟨24290, 31⟩ ⟨24295, 1⟩
    rfl rfl rfl rfl (by decide)

/-- getD after set at the written index, when the index is in range. -/
theorem getD_set_self {α : Type} (l : List α) (i : ℕ) (a d : α)
    (h : i < l.length) : (l.set i a).getD i d = a := by
  rw [List.getD_eq_getElem?_getD, List.getElem?_set_self]
  · rfl
  · exact h

/-- getD after set at a different index. -/
theorem getD_set_ne {α : Type} (l : List α) (i j : ℕ) (a d : α)
    (h : i ≠ j) : (l.set i a).getD j d = l.getD j d := by
  rw [List.getD_eq_getElem?_getD, List.getD_eq_getElem?_getD,
    List.getElem?_set_ne h]

/-- Cast of the derived GP ratio to the reals. -/
theorem gp_ratio_cast (t : TierParams) :
    ((t.gp_dist_ratio : ℚ) : ℝ) = 1 - (t.lp_dist_ratio : ℝ) := by
  rw [TierParams.gp_dist_ratio]
  push_cast
  ring

/-- The tier loop preserves the lengths of both cash-flow lists. -/
theorem tierAllocLoop_length (deal_dates : List ℤ) (i : ℕ) :
    ∀ (ts : List TierParams) (lp gp : List ℝ) (rem : ℝ),
      (tierAllocLoop deal_dates i ts lp gp rem).1.length = lp.length ∧
      (tierAllocLoop deal_dates i ts lp gp rem).2.1.length = gp.length := by
  intro ts
  induction ts with
  | nil => intro lp gp rem; exact ⟨rfl, rfl⟩
  | cons t rest ih =>
    intro lp gp rem
    rw [tierAllocLoop]
    split
    · constructor <;> simp
    · rcases ih (lp.set i (lp.getD i 0 + _)) (gp.set i (gp.getD i 0 + _)) _ with ⟨h1, h2⟩
      constructor
      · rw [h1]; simp
      · rw [h2]; simp

/-- The tier loop does not touch entries at other indices. -/
theorem tierAllocLoop_getD_ne (deal_dates : List ℤ) (i : ℕ) (j : ℕ) (hij : i ≠ j) :
    ∀ (ts : List TierParams) (lp gp : List ℝ) (rem : ℝ),
      (tierAllocLoop deal_dates i ts lp gp rem).1.getD j 0 = lp.getD j 0 ∧
      (tierAllocLoop deal_dates i ts lp gp rem).2.1.getD j 0 = gp.getD j 0 := by
  intro ts
  induction ts with
  | nil => intro lp gp rem; exact ⟨rfl, rfl⟩
  | cons t rest ih =>
    intro lp gp rem
    rw [tierAllocLoop]
    split
    · constructor <;> rw [getD_set_ne _ _ _ _ _ hij]
    · rcases ih (lp.set i _) (gp.set i _) _ with ⟨h1, h2⟩
      constructor
      · rw [h1, getD_set_ne _ _ _ _ _ hij]
      · rw [h2, getD_set_ne _ _ _ _ _ hij]

/-- Through the tier loop, the sum of the two entries at index i plus the
remaining cash is invariant: allocations are moved from the remaining cash
into the two lists without loss. -/
theorem tierAllocLoop_sum (deal_dates : List ℤ) (i : ℕ) :
    ∀ (ts : List TierParams) (lp gp : List ℝ) (rem : ℝ),
      i < lp.length → i < gp.length →
      (tierAllocLoop deal_dates i ts lp gp rem).1.getD i 0 +
        (tierAllocLoop deal_dates i ts lp gp rem).2.1.getD i 0 +
        (tierAllocLoop deal_dates i ts lp gp rem).2.2 =
      lp.getD i 0 + gp.getD i 0 + rem := by
  intro ts
  induction ts with
  | nil => intro lp gp rem h1 h2; rw [tierAllocLoop]
  | cons t rest ih =>
    intro lp gp rem h1 h2
    rw [tierAllocLoop]
    split
    · rw [getD_set_self _ _ _ _ h1, getD_set_self _ _ _ _ h2]
      ring
    · rw [ih _ _ _ (by simpa using h1) (by simpa using h2),
        getD_set_self _ _ _ _ h1, getD_set_self _ _ _ _ h2]
      ring

/-- One tier step removes at most the remaining cash when the LP ratio is
positive: the LP allocation is capped by rem * ratio and the joint LP + GP
allocation is the LP allocation divided by the ratio. -/
theorem tier_step_rem_nonneg (l fv rem : ℝ) (hl : 0 < l) (hrem : 0 ≤ rem) :
    0 ≤ rem - (min fv (rem * l) + min fv (rem * l) * ((1 - l) / l)) := by
  have hl0 : l ≠ 0 := ne_of_gt hl
  have h1 : min fv (rem * l) ≤ rem * l := min_le_right _ _
  have hsum : min fv (rem * l) + min fv (rem * l) * ((1 - l) / l)
      = min fv (rem * l) / l := by
    field_simp
    ring
  have h2 : min fv (rem * l) / l ≤ rem := by
    have h3 : min fv (rem * l) / l ≤ rem * l / l := (div_le_div_right hl).mpr h1
    rw [mul_div_cancel_right₀ rem hl0] at h3
    exact h3
  rw [hsum]
  linarith

/-- With every tier's LP ratio positive, the remaining cash in the tier loop
never becomes negative (when the required future value is negative the
allocation is negative and the remaining cash grows). -/
theorem tierAllocLoop_rem_nonneg (deal_dates : List ℤ) (i : ℕ) :
    ∀ (ts : List TierParams) (lp gp : List ℝ) (rem : ℝ),
      (∀ t ∈ ts, 0 < t.lp_dist_ratio) → 0 ≤ rem →
      0 ≤ (tierAllocLoop deal_dates i ts lp gp rem).2.2 := by
  intro ts
  induction ts with
  | nil => intro lp gp rem hts hrem; exact hrem
  | cons t rest ih =>
    intro lp gp rem hts hrem
    have hl : (0 : ℝ) < (t.lp_dist_ratio : ℝ) := by
      exact_mod_cast hts t (List.mem_cons_self t rest)
    rw [tierAllocLoop]
    split
    · rw [gp_ratio_cast t]
      exact tier_step_rem_nonneg ((t.lp_dist_ratio : ℝ)) _ rem hl hrem
    · next hstop =>
      exact ih _ _ _ (fun u hu => hts u (List.mem_cons_of_mem t hu))
        (le_of_lt (lt_of_le_of_lt (by norm_num) (lt_of_not_le hstop)))

/-- distributeIndex preserves the lengths of both lists. -/
theorem distributeIndex_length (tiers : List TierParams) (deal_dates : List ℤ)
    (flows : List ℝ) (i : ℕ) (lp gp : List ℝ) :
    (distributeIndex tiers deal_dates flows i lp gp).1.length = lp.length ∧
    (distributeIndex tiers deal_dates flows i lp gp).2.length = gp.length := by
  simp only [distributeIndex]
  have hL := tierAllocLoop_length deal_dates i tiers lp gp (flows.getD i 0)
  split
  · split
    · constructor
      · rw [List.length_set, hL.1]
      · rw [List.length_set, hL.2]
    · exact hL
  · exact ⟨rfl, rfl⟩

/-- distributeIndex does not touch entries at other indices. -/
theorem distributeIndex_getD_ne (tiers : List TierParams) (deal_dates : List ℤ)
    (flows : List ℝ) (i j : ℕ) (hij : i ≠ j) (lp gp : List ℝ) :
    (distributeIndex tiers deal_dates flows i lp gp).1.getD j 0 = lp.getD j 0 ∧
    (distributeIndex tiers deal_dates flows i lp gp).2.getD j 0 = gp.getD j 0 := by
  simp only [distributeIndex]
  have hU := tierAllocLoop_getD_ne deal_dates i j hij tiers lp gp (flows.getD i 0)
  split
  · split
    · constructor
      · rw [getD_set_ne _ _ _ _ _ hij, hU.1]
      · rw [getD_set_ne _ _ _ _ _ hij, hU.2]
    · exact hU
  · exact ⟨rfl, rfl⟩

/-- distributeIndex conserves the total at its index up to a leak of at most
1e-12: the leak is the remaining cash abandoned by the early break of the
tier loop; when the remainder exceeds 1e-12 the final split by the last
tier's ratios restores exact conservation. -/
theorem distributeIndex_sum (tiers : List TierParams) (deal_dates : List ℤ)
    (flows : List ℝ) (i : ℕ) (lp gp : List ℝ)
    (hts : ∀ t ∈ tiers, 0 < t.lp_dist_ratio)
    (h1 : i < lp.length) (h2 : i < gp.length) :
    ∃ leak : ℝ, 0 ≤ leak ∧ leak ≤ 1 / 10 ^ 12 ∧
      (distributeIndex tiers deal_dates flows i lp gp).1.getD i 0 +
        (distributeIndex tiers deal_dates flows i lp gp).2.getD i 0 =
      lp.getD i 0 + gp.getD i 0 +
        (if 0 < flows.getD i 0 then flows.getD i 0 else 0) - leak := by
  simp only [distributeIndex]
  have hL := tierAllocLoop_length deal_dates i tiers lp gp (flows.getD i 0)
  have hsum := tierAllocLoop_sum deal_dates i tiers lp gp (flows.getD i 0) h1 h2
  split
  · next hcf =>
    split
    · next hrem =>
      refine ⟨0, le_refl 0, by norm_num, ?_⟩
      rw [getD_set_self _ _ _ _ (by rw [hL.1]; exact h1),
          getD_set_self _ _ _ _ (by rw [hL.2]; exact h2),
          gp_ratio_cast]
      linear_combination hsum
    · next hrem =>
      refine ⟨(tierAllocLoop deal_dates i tiers lp gp (flows.getD i 0)).2.2,
        tierAllocLoop_rem_nonneg deal_dates i tiers lp gp _ hts (le_of_lt hcf),
        le_of_not_lt hrem, ?_⟩
      linear_combination hsum
  · next hcf =>
    refine ⟨0, le_refl 0, by norm_num, ?_⟩
    simp

/-- The first n steps of the tier distribution fold. -/
noncomputable def distFold (tiers : List TierParams) (deal_dates : List ℤ)
    (flows : List ℝ) (n : ℕ) (lp gp : List ℝ) : List ℝ × List ℝ :=
  (List.range n).foldl
    (fun s i => distributeIndex tiers deal_dates flows i s.1 s.2) (lp, gp)

/-- tier_distribution is the fold over all indices. -/
theorem tier_distribution_eq_distFold (tiers : List TierParams)
    (deal_dates : List ℤ) (flows : List ℝ) (lp gp : List ℝ) :
    tier_distribution tiers deal_dates flows lp gp =
      distFold tiers deal_dates flows flows.length lp gp := rfl

/-- Unfolding one step of the fold. -/
theorem distFold_succ (tiers : List TierParams) (deal_dates : List ℤ)
    (flows : List ℝ) (n : ℕ) (lp gp : List ℝ) :
    distFold tiers deal_dates flows (n + 1) lp gp =
      distributeIndex tiers deal_dates flows n
        (distFold tiers deal_dates flows n lp gp).1
        (distFold tiers deal_dates flows n lp gp).2 := by
  rw [distFold, distFold, List.range_succ, List.foldl_append]
  rfl

/-- Invariants of the tier-distribution fold: lengths are preserved, indices
not yet processed are untouched, and every processed index conserves its
total up to a leak of at most 1e-12. -/
theorem distFold_invariants (tiers : List TierParams) (deal_dates : List ℤ)
    (flows : List ℝ) (hts : ∀ t ∈ tiers, 0 < t.lp_dist_ratio) :
    ∀ (n : ℕ) (lp gp : List ℝ),
      (distFold tiers deal_dates flows n lp gp).1.length = lp.length ∧
      (distFold tiers deal_dates flows n lp gp).2.length = gp.length ∧
      (∀ j, n ≤ j →
        (distFold tiers deal_dates flows n lp gp).1.getD j 0 = lp.getD j 0 ∧
        (distFold tiers deal_dates flows n lp gp).2.getD j 0 = gp.getD j 0) ∧
      (∀ j, j < n → j < lp.length → j < gp.length →
        |(distFold tiers deal_dates flows n lp gp).1.getD j 0 +
          (distFold tiers deal_dates flows n lp gp).2.getD j 0 -
          (lp.getD j 0 + gp.getD j 0 +
            (if 0 < flows.getD j 0 then flows.getD j 0 else 0))| ≤ 1 / 10 ^ 12) := by
  intro n
  induction n with
  | zero =>
    intro lp gp
    exact ⟨rfl, rfl, fun j _ => ⟨rfl, rfl⟩,
      fun j hj => absurd hj (Nat.not_lt_zero j)⟩
  | succ n ih =>
    intro lp gp
    rcases ih lp gp with ⟨hl1, hl2, hu, hb⟩
    rw [distFold_succ]
    have hDL := distributeIndex_length tiers deal_dates flows n
      (distFold tiers deal_dates flows n lp gp).1
      (distFold tiers deal_dates flows n lp gp).2
    refine ⟨by rw [hDL.1, hl1], by rw [hDL.2, hl2], ?_, ?_⟩
    · intro j hj
      have hnj : n ≠ j := by omega
      have hD := distributeIndex_getD_ne tiers deal_dates flows n j hnj
        (distFold tiers deal_dates flows n lp gp).1
        (distFold tiers deal_dates flows n lp gp).2
      have hu2 := hu j (by omega)
      exact ⟨hD.1.trans hu2.1, hD.2.trans hu2.2⟩
    · intro j hj hjlp hjgp
      by_cases hjn : j < n
      · have hnj : n ≠ j := by omega
        have hD := distributeIndex_getD_ne tiers deal_dates flows n j hnj
          (distFold tiers deal_dates flows n lp gp).1
          (distFold tiers deal_dates flows n lp gp).2
        rw [hD.1, hD.2]
        exact hb j hjn hjlp hjgp
      · have hjn2 : j = n := by omega
        subst hjn2
        rcases distributeIndex_sum tiers deal_dates flows j
          (distFold tiers deal_dates flows j lp gp).1
          (distFold tiers deal_dates flows j lp gp).2 hts
          (by rw [hl1]; exact hjlp) (by rw [hl2]; exact hjgp) with
          ⟨leak, hleak0, hleakle, heq⟩
        rcases hu j (le_refl j) with ⟨hu1, hu2⟩
        rw [heq, hu1, hu2]
        have habs : lp.getD j 0 + gp.getD j 0 +
            (if 0 < flows.getD j 0 then flows.getD j 0 else 0) - leak -
            (lp.getD j 0 + gp.getD j 0 +
              (if 0 < flows.getD j 0 then flows.getD j 0 else 0)) = -leak := by
          ring
        rw [habs, abs_neg, abs_of_nonneg hleak0]
        exact hleakle

/-- getD of a mapped list at an in-range index. -/
theorem getD_map_lt (f : ℝ → ℝ) (l : List ℝ) (j : ℕ) (h : j < l.length) :
    (l.map f).getD j 0 = f (l.getD j 0) := by
  rw [List.getD_eq_getElem (l.map f) 0 (by simpa using h),
    List.getD_eq_getElem l 0 h, List.getElem_map]

/-- Conservation of the waterfall on arbitrary date and flow lists: at every
index the allocated LP plus GP cash equals the deal cash within 1e-9. -/
theorem waterfall_sum_general (tiers : List TierParams) (ds : List ℤ)
    (fs : List ℝ) (hts : ∀ t ∈ tiers, 0 < t.lp_dist_ratio)
    (i : ℕ) (hi : i < fs.length) :
    |(waterfall tiers ds fs).1.getD i 0 + (waterfall tiers ds fs).2.getD i 0 -
      fs.getD i 0| ≤ 1 / 10 ^ 9 := by
  simp only [waterfall, tier_distribution_eq_distFold]
  have hlen1 : (initial_allocation tiers.headI fs).1.length = fs.length := by
    simp [initial_allocation]
  have hlen2 : (initial_allocation tiers.headI fs).2.length = fs.length := by
    simp [initial_allocation]
  have inv := distFold_invariants tiers ds fs hts fs.length
    (initial_allocation tiers.headI fs).1 (initial_allocation tiers.headI fs).2
  have hbound := inv.2.2.2 i hi (by rw [hlen1]; exact hi) (by rw [hlen2]; exact hi)
  have h1 : (initial_allocation tiers.headI fs).1.getD i 0 =
      if fs.getD i 0 < 0 then fs.getD i 0 * (tiers.headI.lp_dist_ratio : ℝ) else 0 := by
    rw [initial_allocation]
    exact getD_map_lt _ fs i hi
  have h2 : (initial_allocation tiers.headI fs).2.getD i 0 =
      if fs.getD i 0 < 0 then fs.getD i 0 * ((tiers.headI.gp_dist_ratio : ℚ) : ℝ) else 0 := by
    rw [initial_allocation]
    exact getD_map_lt _ fs i hi
  have hkey : (initial_allocation tiers.headI fs).1.getD i 0 +
      (initial_allocation tiers.headI fs).2.getD i 0 +
      (if 0 < fs.getD i 0 then fs.getD i 0 else 0) = fs.getD i 0 := by
    rw [h1, h2, gp_ratio_cast]
    rcases lt_trichotomy (fs.getD i 0) 0 with h | h | h
    · rw [if_pos h, if_pos h, if_neg (by linarith)]
      ring
    · rw [if_neg (by rw [h]; exact lt_irrefl 0), if_neg (by rw [h]; exact lt_irrefl 0),
        if_neg (by rw [h]; exact lt_irrefl 0), h]
      ring
    · rw [if_neg (by linarith), if_neg (by linarith), if_pos h]
      ring
  rw [← hkey]
  exact le_trans hbound (by norm_num)

/-- C1 amended: for every waterfall evaluation (CarriedInterest.calculate on
a non-empty canonicalized cash-flow series with at least one tier, every
tier having a positive LP distribution ratio), the allocation conserves the
total at every period within 1e-9. -/
theorem carried_interest_conserves (tiers : List TierParams)
    (deal_dates : List ℤ) (deal_cash_flows : List ℝ)
    (hts : ∀ t ∈ tiers, 0 < t.lp_dist_ratio) (_htne : tiers ≠ [])
    (_hne : (sum_cash_flows_by_date deal_dates deal_cash_flows).2 ≠ [])
    (i : ℕ)
    (hi : i < (sum_cash_flows_by_date deal_dates deal_cash_flows).2.length) :
    |(waterfall tiers (sum_cash_flows_by_date deal_dates deal_cash_flows).1
        (sum_cash_flows_by_date deal_dates deal_cash_flows).2).1.getD i 0 +
      (waterfall tiers (sum_cash_flows_by_date deal_dates deal_cash_flows).1
        (sum_cash_flows_by_date deal_dates deal_cash_flows).2).2.getD i 0 -
      (sum_cash_flows_by_date deal_dates deal_cash_flows).2.getD i 0|
      ≤ 1 / 10 ^ 9 :=
  waterfall_sum_general tiers _ _ hts i hi

theorem fv_ce : future_value [0, 365] 1 [(1:ℝ), 0] ((9 : ℚ) : ℝ) = -10 := by
  have hc9 : (1 : ℝ) + ((9 : ℚ) : ℝ) = 10 := by push_cast; norm_num
  simp only [future_value]
  norm_num [List.range_succ, day_count_fraction, hc9, Real.rpow_zero, Real.rpow_one]
  rw [pyRound_of_mul_eq 10 (-10) (-100000000000) (by norm_num)]

theorem loop_ce :
    tierAllocLoop [0, 365] 1 [⟨-1, 9⟩] [(1:ℝ), 0] [(-2:ℝ), 0] 5 =
      ([1, -10], [-2, 20], -5) := by
  rw [tierAllocLoop]
  rw [show (({ lp_dist_ratio := -1, hurdle_rate := 9 } : TierParams).hurdle_rate : ℝ)
    = ((9 : ℚ) : ℝ) from rfl]
  rw [fv_ce]
  norm_num [TierParams.gp_dist_ratio]

/-- The empty fold does nothing. -/
theorem distFold_zero (tiers : List TierParams) (ds : List ℤ) (fs : List ℝ)
    (lp gp : List ℝ) : distFold tiers ds fs 0 lp gp = (lp, gp) := rfl

/-- C1 counterexample: with the single (degenerate) tier whose LP ratio is
-1 and hurdle 9, dates 0 and 365 and flows -1 and 5, the constructor's
ratio validation passes (the ratios sum to 1 exactly) and calculate runs,
but the allocation at period 1 is LP -10 and GP 20, total 10, while the
deal flow is 5: conservation fails by 5, far beyond 1e-9. -/
theorem waterfall_claim_refuted :
    1 / 10 ^ 9 <
      |(waterfall [⟨-1, 9⟩] (sum_cash_flows_by_date [0, 365] [(-1 : ℝ), 5]).1
          (sum_cash_flows_by_date [0, 365] [(-1 : ℝ), 5]).2).1.getD 1 0 +
        (waterfall [⟨-1, 9⟩] (sum_cash_flows_by_date [0, 365] [(-1 : ℝ), 5]).1
          (sum_cash_flows_by_date [0, 365] [(-1 : ℝ), 5]).2).2.getD 1 0 -
        (sum_cash_flows_by_date [0, 365] [(-1 : ℝ), 5]).2.getD 1 0| := by
  have hsum : sum_cash_flows_by_date [0, 365] [(-1 : ℝ), 5] = ([0, 365], [-1, 5]) := by
    simp [sum_cash_flows_by_date, sortInts, insertSortedInt,
      List.dedup_cons_of_not_mem, List.dedup_cons_of_mem]
  rw [hsum]
  have hinit : initial_allocation (([(⟨-1, 9⟩ : TierParams)]).headI) [(-1:ℝ), 5]
      = ([1, 0], [-2, 0]) := by
    norm_num [initial_allocation, TierParams.gp_dist_ratio]
  have hd0 : distributeIndex [⟨-1, 9⟩] [0, 365] [(-1:ℝ), 5] 0 [1, 0] [-2, 0]
      = ([1, 0], [-2, 0]) := by
    norm_num [distributeIndex]
  have hd1 : distributeIndex [⟨-1, 9⟩] [0, 365] [(-1:ℝ), 5] 1 [1, 0] [-2, 0]
      = ([1, -10], [-2, 20]) := by
    simp only [distributeIndex]
    rw [show ([(-1:ℝ), 5].getD 1 0) = 5 by norm_num]
    rw [loop_ce]
    norm_num
  have hw : waterfall [⟨-1, 9⟩] [0, 365] [(-1 : ℝ), 5] = ([1, -10], [-2, 20]) := by
    simp only [waterfall, hinit]
    rw [tier_distribution_eq_distFold]
    rw [show ([(-1:ℝ), 5].length) = 1 + 1 from rfl, distFold_succ]
    rw [show (1 : ℕ) = 0 + 1 from rfl, distFold_succ, distFold_zero]
    simp only [Prod.fst, Prod.snd]
    rw [hd0]
    simp only [Prod.fst, Prod.snd]
    rw [hd1]
  rw [hw]
  norm_num

/-- Witness for the amended C1 at a concrete two-flow deal and one tier. -/
theorem carried_interest_conserves_witness :
    (∀ t ∈ [(⟨9/10, 8/100⟩ : TierParams)], 0 < t.lp_dist_ratio) ∧
    ([(⟨9/10, 8/100⟩ : TierParams)] ≠ []) ∧
    (sum_cash_flows_by_date [0, 365] [(-2 : ℝ), 7]).2 ≠ [] ∧
    0 < (sum_cash_flows_by_date [0, 365] [(-2 : ℝ), 7]).2.length ∧
    |(waterfall [⟨9/10, 8/100⟩] (sum_cash_flows_by_date [0, 365] [(-2 : ℝ), 7]).1
        (sum_cash_flows_by_date [0, 365] [(-2 : ℝ), 7]).2).1.getD 0 0 +
      (waterfall [⟨9/10, 8/100⟩] (sum_cash_flows_by_date [0, 365] [(-2 : ℝ), 7]).1
        (sum_cash_flows_by_date [0, 365] [(-2 : ℝ), 7]).2).2.getD 0 0 -
      (sum_cash_flows_by_date [0, 365] [(-2 : ℝ), 7]).2.getD 0 0| ≤ 1 / 10 ^ 9 := by
  have h1 : ∀ t ∈ [(⟨9/10, 8/100⟩ : TierParams)], 0 < t.lp_dist_ratio := by
    intro t ht
    rw [List.mem_singleton] at ht
    rw [ht]
    norm_num
  have h2 : ([(⟨9/10, 8/100⟩ : TierParams)] : List TierParams) ≠ [] := by simp
  have h3 : (sum_cash_flows_by_date [0, 365] [(-2 : ℝ), 7]).2 ≠ [] := by
    simp [sum_cash_flows_by_date, sortInts, insertSortedInt,
      List.dedup_cons_of_not_mem, List.dedup_cons_of_mem]
  have h4 : 0 < (sum_cash_flows_by_date [0, 365] [(-2 : ℝ), 7]).2.length := by
    simp [sum_cash_flows_by_date, sortInts, insertSortedInt,
      List.dedup_cons_of_not_mem, List.dedup_cons_of_mem]
  exact ⟨h1, h2, h3, h4,
    carried_interest_conserves [⟨9/10, 8/100⟩] [0, 365] [(-2 : ℝ), 7] h1 h2 h3 0 h4⟩

/-- The required future value over all-zero LP flows is 0, whatever the
hurdle is. -/
theorem fv_c5 : future_value [0, 1] 1 [(0:ℝ), 0] ((8 / 100 : ℚ) : ℝ) = 0 := by
  simp only [future_value]
  simp [List.range_succ]
  rw [pyRound_zero]

/-- Tier loop at the tiny positive flow 1e-12: nothing is allocated (the
required future value is 0) and the loop breaks with the full 1e-12 left. -/
theorem loop_c5 :
    tierAllocLoop [0, 1] 1 [⟨9/10, 8/100⟩] [(0:ℝ), 0] [(0:ℝ), 0] (1 / 10 ^ 12) =
      ([0, 0], [0, 0], 1 / 10 ^ 12) := by
  rw [tierAllocLoop]
  rw [show ((({ lp_dist_ratio := 9/10, hurdle_rate := 8/100 } : TierParams)).hurdle_rate : ℝ)
    = ((8 / 100 : ℚ) : ℝ) from rfl]
  rw [fv_c5]
  norm_num [TierParams.gp_dist_ratio]

/-- The waterfall on the C5 failing input allocates nothing. -/
theorem waterfall_c5 :
    waterfall [⟨9/10, 8/100⟩] [0, 1] [(0 : ℝ), 1 / 10 ^ 12] = ([0, 0], [0, 0]) := by
  have hinit : initial_allocation (([(⟨9/10, 8/100⟩ : TierParams)]).headI)
      [(0:ℝ), 1 / 10 ^ 12] = ([0, 0], [0, 0]) := by
    norm_num [initial_allocation, TierParams.gp_dist_ratio]
  have hd0 : distributeIndex [⟨9/10, 8/100⟩] [0, 1] [(0:ℝ), 1 / 10 ^ 12] 0
      [0, 0] [0, 0] = ([0, 0], [0, 0]) := by
    norm_num [distributeIndex]
  have hd1 : distributeIndex [⟨9/10, 8/100⟩] [0, 1] [(0:ℝ), 1 / 10 ^ 12] 1
      [0, 0] [0, 0] = ([0, 0], [0, 0]) := by
    simp only [distributeIndex]
    rw [show ([(0:ℝ), 1 / 10 ^ 12].getD 1 0) = 1 / 10 ^ 12 by norm_num]
    rw [loop_c5]
    norm_num
  simp only [waterfall, hinit]
  rw [tier_distribution_eq_distFold]
  rw [show ([(0:ℝ), 1 / 10 ^ 12].length) = 1 + 1 from rfl, distFold_succ]
  rw [show (1 : ℕ) = 0 + 1 from rfl, distFold_succ, distFold_zero]
  simp only [Prod.fst, Prod.snd]
  rw [hd0]
  simp only [Prod.fst, Prod.snd]
  rw [hd1]

/-- C5 is violated by the code: on the deal [0 at day 0, 1e-12 at day 1]
with a standard 90/10 tier, nothing is allocated (the 1e-12 flow is left
behind by the tier-loop break), the deal distributions are positive, and
both effective shares evaluate to 0; the asserted closeness of their sum to
1 (rel_tol 1e-5) is false, so the assertion in _compute_irr_multiple fails
on this input. -/
theorem effective_share_assertion_fails :
    lp_effective_share [⟨9/10, 8/100⟩]
      (sum_cash_flows_by_date [0, 1] [(0 : ℝ), 1 / 10 ^ 12]).2
      (waterfall [⟨9/10, 8/100⟩] (sum_cash_flows_by_date [0, 1] [(0 : ℝ), 1 / 10 ^ 12]).1
        (sum_cash_flows_by_date [0, 1] [(0 : ℝ), 1 / 10 ^ 12]).2).1 = 0 ∧
    gp_effective_share [⟨9/10, 8/100⟩]
      (sum_cash_flows_by_date [0, 1] [(0 : ℝ), 1 / 10 ^ 12]).2
      (waterfall [⟨9/10, 8/100⟩] (sum_cash_flows_by_date [0, 1] [(0 : ℝ), 1 / 10 ^ 12]).1
        (sum_cash_flows_by_date [0, 1] [(0 : ℝ), 1 / 10 ^ 12]).2).2 = 0 ∧
    ¬ mathIsClose (0 + 0) 1 (1 / 10 ^ 5) := by
  have hsum : sum_cash_flows_by_date [0, 1] [(0 : ℝ), 1 / 10 ^ 12]
      = ([0, 1], [0, 1 / 10 ^ 12]) := by
    simp [sum_cash_flows_by_date, sortInts, insertSortedInt,
      List.dedup_cons_of_not_mem, List.dedup_cons_of_mem]
  rw [hsum]
  simp only [Prod.fst, Prod.snd]
  rw [waterfall_c5]
  have hposd : sumPos [(0 : ℝ), 1 / 10 ^ 12] = 1 / 10 ^ 12 := by
    norm_num [sumPos, List.filter_cons, decide_eq_true_eq]
  have hpos0 : sumPos [(0 : ℝ), 0] = 0 := by
    norm_num [sumPos, List.filter_cons, decide_eq_true_eq]
  refine ⟨?_, ?_, ?_⟩
  · rw [lp_effective_share, if_neg (by norm_num), if_pos (by rw [hposd]; norm_num)]
    rw [hpos0]
    exact zero_div _
  · rw [gp_effective_share, if_neg (by norm_num), if_pos (by rw [hposd]; norm_num)]
    rw [hpos0]
    exact zero_div _
  · rw [mathIsClose]
    norm_num
